import Mathlib

/-!
Shallow embedding of the tic-tac-toe console game (src/script.js).

The program is a single-threaded prompt/response game:
a 3×3 board held by the `gameBoard` module, a `Game` controller with
`setupPlayer`, `gameLoop` and `checkWinner`, and two players created by
`createPlayer`.  Interactive prompts are modelled as input streams
(lists) consumed left to right; in-place mutation of the board is
modelled as explicit state passing on a `Board` value.  JavaScript
numbers reaching `setPlayerPosition` (results of `parseInt`) are
modelled by `JSNum`: either `NaN` or a rational.
-/

/-- JavaScript number as it reaches the board module: `parseInt` yields an
integer or `NaN`; direct callers could in principle pass any finite number,
modelled as a rational. -/
inductive JSNum : Type where
  | nan : JSNum
  | num : ℚ → JSNum
deriving DecidableEq, Repr

namespace JSNum

/-- JavaScript `<` on numbers: any comparison with `NaN` is false. -/
def jlt : JSNum → JSNum → Bool
  | num a, num b => decide (a < b)
  | _, _ => false

/-- JavaScript `a > b` on numbers: false when either side is `NaN`. -/
def jgt (a b : JSNum) : Bool := jlt b a

/-- JavaScript `-` on numbers: `NaN` propagates. -/
def jsub : JSNum → JSNum → JSNum
  | num a, num b => num (a - b)
  | _, _ => nan

/-- Measure used only to show the repeated-subtraction loop of
`setPlayerPosition` terminates: number of times 3 can still be
subtracted. -/
def iterBound : JSNum → ℕ
  | nan => 0
  | num q => (⌈q⌉).toNat

end JSNum

/-- Cell contents: the source stores the strings " ", or a player's mark. -/
abbrev Cell := String

/-- The mutable state of the `gameBoard` module: the 3×3 grid `board` and
the counter `filledCellCount` (source lines 26-33). -/
structure Board where
  cells : Fin 3 → Fin 3 → Cell
  filledCellCount : ℕ

/-- The initial board: all cells `" "`, counter 0 (source lines 26-33). -/
def initBoard : Board :=
  { cells := fun _ _ => " ", filledCellCount := 0 }

/-- The `while (cellNumber > rows) { rowIndex++; cellNumber -= rows; }` loop
of `setPlayerPosition` (source lines 50-53), with `rows = 3`.  Returns the
final `rowIndex` and the final value of `cellNumber`. -/
def posLoop (rowIndex : ℕ) (cellNumber : JSNum) : ℕ × JSNum :=
  if h : JSNum.jgt cellNumber (.num 3) = true then
    posLoop (rowIndex + 1) (cellNumber.jsub (.num 3))
  else
    (rowIndex, cellNumber)
termination_by cellNumber.iterBound
decreasing_by
  cases cellNumber with
  | nan => simp [JSNum.jgt, JSNum.jlt] at h
  | num q =>
    simp only [JSNum.jgt, JSNum.jlt, decide_eq_true_eq] at h
    simp only [JSNum.jsub, JSNum.iterBound]
    have h4 : (3 : ℤ) < ⌈q⌉ := by
      rw [Int.lt_ceil]; exact_mod_cast h
    have hc : (⌈q - 3⌉ : ℤ) = ⌈q⌉ - 3 := by
      exact_mod_cast Int.ceil_sub_int q (3 : ℤ)
    omega

/-- JavaScript read `board[rowIndex][colIndex]` where `rowIndex` is the
loop counter (a natural number) and `colIndex` is a JS number: the read
yields a string exactly when both indices address an existing entry;
otherwise it yields `undefined`, modelled as `none`.  A `rowIndex`
outside the outer array would make `board[rowIndex]` itself `undefined`
and the inner access a thrown TypeError; that case is kept separate
(see `setPlayerPosition`). -/
def colOf : JSNum → Option (Fin 3)
  | .num q =>
    if q = 0 then some 0
    else if q = 1 then some 1
    else if q = 2 then some 2
    else none
  | .nan => none

/-- Embedding of `setPlayerPosition(cellNumber, playerMark)` (source lines
41-65).  Result `none` models a thrown TypeError (reading a cell of an
`undefined` row); `some (ok, b)` models a normal return of `ok` with
post-state `b`.  The range guard returns false for `cellNumber` outside
`[1, 9]`; then the repeated-subtraction loop computes `rowIndex` and the
residual cell number, `colIndex` is the residual minus 1, and the mark is
placed only when the addressed cell exists and reads `" "`. -/
def setPlayerPosition (b : Board) (cellNumber : JSNum) (playerMark : Cell) :
    Option (Bool × Board) :=
  if JSNum.jlt cellNumber (.num 1) || JSNum.jgt cellNumber (.num 9) then
    some (false, b)
  else
    let rc := posLoop 0 cellNumber
    let colIndex := rc.2.jsub (.num 1)
    if hr : rc.1 < 3 then
      match colOf colIndex with
      | some j =>
          if b.cells ⟨rc.1, hr⟩ j = " " then
            some (true,
              { cells := fun i2 j2 =>
                  if i2 = ⟨rc.1, hr⟩ ∧ j2 = j then playerMark else b.cells i2 j2,
                filledCellCount := b.filledCellCount + 1 })
          else
            some (false, b)
      | none => some (false, b)
    else
      none

/-- Embedding of `getBoard()` for value-level reads inside the module
(source lines 71-73): the snapshot read by `checkWinner` and the
renderer.  Aliasing of the returned rows is treated separately in the
heap model below. -/
def getBoard (b : Board) : Fin 3 → Fin 3 → Cell := b.cells

/-- Embedding of `resetBoard()` (source lines 98-105): the two nested
loops write `" "` into every cell, then the counter is set to 0. -/
def resetBoard (_b : Board) : Board :=
  { cells := fun _ _ => " ", filledCellCount := 0 }

/-- A player as built by `createPlayer(name, playerMark)` (source lines
7-19): an immutable pair exposed through `getPlayerName` and
`getPlayerMark`. -/
structure Player where
  name : String
  mark : String
deriving DecidableEq, Repr

/-- Embedding of `createPlayer` (source line 7). -/
def createPlayer (name : String) (playerMark : String) : Player :=
  { name := name, mark := playerMark }

/-- The `winPositions` table (source lines 145-154): 3 rows, 3 columns,
2 diagonals. -/
def winPositions : List (List (Fin 3 × Fin 3)) :=
  [ [(0, 0), (0, 1), (0, 2)],
    [(1, 0), (1, 1), (1, 2)],
    [(2, 0), (2, 1), (2, 2)],
    [(0, 0), (1, 0), (2, 0)],
    [(0, 1), (1, 1), (2, 1)],
    [(0, 2), (1, 2), (2, 2)],
    [(0, 0), (1, 1), (2, 2)],
    [(0, 2), (1, 1), (2, 0)] ]

/-- The inner counting loop of `checkWinner` (source lines 261-268):
how many coordinates of the pattern hold the player's mark. -/
def positionMatched (b : Board) (pos : List (Fin 3 × Fin 3)) (mark : String) : ℕ :=
  pos.countP (fun rc => b.cells rc.1 rc.2 == mark)

/-- Embedding of `checkWinner(player)` (source lines 256-277): scan the 8
patterns and return true as soon as one has all 3 coordinates matched. -/
def checkWinner (b : Board) (mark : String) : Bool :=
  winPositions.any (fun pos => positionMatched b pos mark == 3)

/-- Number of non-empty cells of the grid, the quantity
`filledCellCount` is meant to track. -/
def countFilled (b : Board) : ℕ :=
  (Finset.univ.filter (fun p : Fin 3 × Fin 3 => b.cells p.1 p.2 ≠ " ")).card

/-- Board invariant stated by the spec: the counter equals the number of
non-empty cells. -/
def boardInv (b : Board) : Prop :=
  b.filledCellCount = countFilled b

/-- Modelled from the spec: the div/mod index-translation rule
`row = (cellNumber - 1) div 3`, `col = (cellNumber - 1) mod 3`, used as the
reference side of the refinement claim about the repeated-subtraction
loop. -/
def specRowCol (cellNumber : ℕ) : ℕ × ℕ :=
  ((cellNumber - 1) / 3, (cellNumber - 1) % 3)

/-- Embedding of `setupPlayer()` (source lines 163-175) over the stream of
answers the operator gives to the two prompts.  Mirrors the control flow
of the source exactly: when the two names are equal the function alerts
and recurses, but on return from the recursion it still falls through to
the two assignments, overwriting `player1` and `player2` with the equal
names (there is no `return` on line 170).  Result: final `(player1,
player2)` and the unconsumed input; `none` when the stream runs dry. -/
def setupPlayer : List String → Option (Player × Player × List String)
  | name1 :: name2 :: rest =>
    if name1 = name2 then
      match setupPlayer rest with
      | some (_, _, rest2) =>
          some (createPlayer name1 "X", createPlayer name2 "O", rest2)
      | none => none
    else
      some (createPlayer name1 "X", createPlayer name2 "O", rest)
  | _ => none

/-- Embedding of `gameLoop()` (source lines 200-235) as the sequence of
players who move, driven by the stream of `parseInt(prompt(...))` results.
Each list element is one answer to a cell-number prompt.  Per outer-loop
iteration: the current player is `player1` when `filledCellCount` is even
and `player2` otherwise (source line 208); the inner do-while re-prompts
the same player until `setPlayerPosition` succeeds; after a success the
mover is recorded and the loop ends on a win (`checkWinner`) or a full
board, otherwise continues.  An exhausted stream (the run blocked on
input) and a thrown placement (never reachable) end the trace. -/
def gameLoopTrace (player1 player2 : Player) (b : Board) :
    List JSNum → List Player
  | [] => []
  | c :: rest =>
    if b.filledCellCount = 9 then []
    else
      let curPlayer := if b.filledCellCount % 2 = 0 then player1 else player2
      match setPlayerPosition b c curPlayer.mark with
      | some (true, b2) =>
        if checkWinner b2 curPlayer.mark then [curPlayer]
        else if b2.filledCellCount = 9 then [curPlayer]
        else curPlayer :: gameLoopTrace player1 player2 b2 rest
      | some (false, _) => gameLoopTrace player1 player2 b rest
      | none => []

/-!
Heap model for `getBoard()` (source lines 71-73).  The module state is
an outer array `board` whose three slots hold references to three row
arrays.  `getBoard` evaluates the spread `[...board]`: it allocates a
fresh outer array whose slots hold the same three row references.  We
model row references as `Fin 3` ids, the row objects as a store indexed
by id, and an outer array value as a function from slot to row id.
-/

/-- Heap of the `gameBoard` module for the aliasing analysis: contents of
the three row objects, and the internal outer array holding a row
reference per slot. -/
structure JSHeap where
  rowStore : Fin 3 → Fin 3 → Cell
  boardRows : Fin 3 → Fin 3

/-- Initial heap of the board literal (source lines 29-33): three distinct
all-empty row objects, slot `i` of the internal array referencing row
object `i`. -/
def initHeap : JSHeap :=
  { rowStore := fun _ _ => " ", boardRows := id }

/-- The value returned by `getBoard()`: the spread `[...board]` builds a
fresh top-level array whose slots hold the same row references as the
internal array. -/
def getBoardCopy (h : JSHeap) : Fin 3 → Fin 3 :=
  h.boardRows

/-- A caller's top-level assignment `copy[i] = r` into the returned array:
the copy is a fresh object owned by the caller, so the write produces an
updated copy and the heap is untouched. -/
def setOuterSlot (h : JSHeap) (copy : Fin 3 → Fin 3) (i : Fin 3) (r : Fin 3) :
    (Fin 3 → Fin 3) × JSHeap :=
  (Function.update copy i r, h)

/-- A caller's nested write `copy[i][j] = v`: dereferences the row object
`copy i` and mutates it in the heap. -/
def setRowCell (h : JSHeap) (rowRef : Fin 3) (j : Fin 3) (v : Cell) : JSHeap :=
  { h with
    rowStore := fun r2 =>
      if r2 = rowRef then Function.update (h.rowStore r2) j v
      else h.rowStore r2 }

/-- The internal board cell `(i, j)` as the module itself reads it:
follow the internal array's row reference into the row store. -/
def readCellH (h : JSHeap) (i j : Fin 3) : Cell :=
  h.rowStore (h.boardRows i) j

/-! Helper lemmas about `posLoop` and `setPlayerPosition`. -/

theorem posLoop_num (r : ℕ) (q : ℚ) : posLoop r (.num q) =
    if 3 < q then posLoop (r + 1) (.num (q - 3)) else (r, .num q) := by
  rw [posLoop]
  simp [JSNum.jgt, JSNum.jlt, JSNum.jsub]

theorem posLoop_nan (r : ℕ) : posLoop r .nan = (r, .nan) := by
  rw [posLoop]
  simp [JSNum.jgt, JSNum.jlt]

theorem posLoop_step (r : ℕ) (q : ℚ) (h : 3 < q) :
    posLoop r (.num q) = posLoop (r + 1) (.num (q - 3)) := by
  rw [posLoop_num, if_pos h]

theorem posLoop_done (r : ℕ) (q : ℚ) (h : ¬ 3 < q) :
    posLoop r (.num q) = (r, .num q) := by
  rw [posLoop_num, if_neg h]

theorem posLoop_row_le (k : ℕ) : ∀ (r : ℕ) (q : ℚ), q ≤ 3 * k + 3 →
    (posLoop r (.num q)).1 ≤ r + k := by
  induction k with
  | zero =>
    intro r q hq
    push_cast at hq
    rw [posLoop_done r q (by linarith)]
    omega
  | succ k ih =>
    intro r q hq
    push_cast at hq
    by_cases h3 : 3 < q
    · rw [posLoop_step r q h3]
      have hk := ih (r + 1) (q - 3) (by linarith)
      omega
    · rw [posLoop_done r q h3]
      omega

theorem spp_true_elim {b : Board} {c : JSNum} {mark : Cell} {b2 : Board}
    (h : setPlayerPosition b c mark = some (true, b2)) :
    ∃ i j : Fin 3, b.cells i j = " " ∧
      b2 = { cells := fun i2 j2 =>
               if i2 = i ∧ j2 = j then mark else b.cells i2 j2,
             filledCellCount := b.filledCellCount + 1 } := by
  unfold setPlayerPosition at h
  split at h
  · simp at h
  · dsimp only at h
    split at h
    · rename_i hr
      split at h
      · split at h
        · rename_i j hcol hempty
          refine ⟨_, j, hempty, ?_⟩
          simp only [Option.some.injEq, Prod.mk.injEq] at h
          exact h.2.symm
        · simp at h
      · simp at h
    · simp at h

theorem spp_false_elim {b : Board} {c : JSNum} {mark : Cell} {b2 : Board}
    (h : setPlayerPosition b c mark = some (false, b2)) : b2 = b := by
  unfold setPlayerPosition at h
  split at h
  · simp at h
    exact h.symm
  · dsimp only at h
    split at h
    · split at h
      · split at h
        · simp at h
        · simp at h
          exact h.symm
      · simp at h
        exact h.symm
    · simp at h

theorem spp_true_count {b : Board} {c : JSNum} {mark : Cell} {b2 : Board}
    (h : setPlayerPosition b c mark = some (true, b2)) :
    b2.filledCellCount = b.filledCellCount + 1 := by
  obtain ⟨i, j, _, hb2⟩ := spp_true_elim h
  rw [hb2]

theorem spp_int (b : Board) (c : ℕ) (h1 : 1 ≤ c) (h9 : c ≤ 9) (mark : Cell)
    (i j : Fin 3) (hi : (i : ℕ) = (c - 1) / 3) (hj : (j : ℕ) = (c - 1) % 3) :
    setPlayerPosition b (.num (c : ℚ)) mark =
      if b.cells i j = " " then
        some (true,
          { cells := fun i2 j2 =>
              if i2 = i ∧ j2 = j then mark else b.cells i2 j2,
            filledCellCount := b.filledCellCount + 1 })
      else some (false, b) := by
  interval_cases c <;>
  · norm_num at hi hj
    simp only [setPlayerPosition]
    norm_num [JSNum.jlt, JSNum.jgt, JSNum.jsub, colOf, posLoop_step, posLoop_done]
    rw [show i = ⟨(i : ℕ), i.isLt⟩ from rfl, show j = ⟨(j : ℕ), j.isLt⟩ from rfl]
    simp [hi, hj]

theorem countFilled_le_nine (b : Board) : countFilled b ≤ 9 := by
  unfold countFilled
  have h := Finset.card_filter_le (Finset.univ : Finset (Fin 3 × Fin 3))
    (fun p => b.cells p.1 p.2 ≠ " ")
  simpa using h

theorem countFilled_place (b : Board) (i j : Fin 3) (mark : Cell)
    (hempty : b.cells i j = " ") (hmark : mark ≠ " ") :
    countFilled
      { cells := fun i2 j2 =>
          if i2 = i ∧ j2 = j then mark else b.cells i2 j2,
        filledCellCount := b.filledCellCount + 1 } = countFilled b + 1 := by
  unfold countFilled
  have hset :
      (Finset.univ.filter (fun p : Fin 3 × Fin 3 =>
        (if p.1 = i ∧ p.2 = j then mark else b.cells p.1 p.2) ≠ " ")) =
      insert (i, j)
        (Finset.univ.filter (fun p : Fin 3 × Fin 3 => b.cells p.1 p.2 ≠ " ")) := by
    ext p
    rcases p with ⟨pi, pj⟩
    by_cases hp : pi = i ∧ pj = j
    · simp [hp.1, hp.2, hmark]
    · simp only [Finset.mem_filter, Finset.mem_univ, true_and, Finset.mem_insert,
        Prod.mk.injEq, if_neg hp]
      constructor
      · intro hne
        exact Or.inr hne
      · intro hor
        rcases hor with hor | hne
        · exact absurd ⟨hor.1, hor.2⟩ hp
        · exact hne
  rw [hset, Finset.card_insert_of_not_mem]
  simp [hempty]

/-- C2: `checkWinner(player)` returns true if and only if the player's
mark occupies all three coordinates of at least one of the 8 fixed
winning patterns; in particular it returns false on a board with no
completed line for the mark, and on the all-empty board for any actual
mark (any mark other than the empty-cell string).  The embedding is a
pure function of the board value, so the scan mutates nothing. -/
theorem checkWinner_spec :
    (∀ (b : Board) (mark : String),
       checkWinner b mark = true ↔
         ∃ pos ∈ winPositions, ∀ rc ∈ pos, b.cells rc.1 rc.2 = mark) ∧
    (∀ mark : String, mark ≠ " " → checkWinner initBoard mark = false) := by
  constructor
  · intro b mark
    have key : ∀ pos ∈ winPositions,
        ((positionMatched b pos mark == 3) = true ↔
          ∀ rc ∈ pos, b.cells rc.1 rc.2 = mark) := by
      intro pos hmem
      have hlen : pos.length = 3 := by
        fin_cases hmem <;> rfl
      rw [beq_iff_eq, positionMatched]
      constructor
      · intro h3
        have hc : List.countP (fun rc => b.cells rc.1 rc.2 == mark) pos
            = pos.length := by
          rw [hlen]; exact h3
        intro rc hrc
        have := List.countP_eq_length.mp hc rc hrc
        simpa using this
      · intro hall
        have hc : List.countP (fun rc => b.cells rc.1 rc.2 == mark) pos
            = pos.length :=
          List.countP_eq_length.mpr (fun rc hrc => by simp [hall rc hrc])
        rw [hc, hlen]
    unfold checkWinner
    rw [List.any_eq_true]
    constructor
    · rintro ⟨pos, hmem, hc⟩
      exact ⟨pos, hmem, (key pos hmem).mp hc⟩
    · rintro ⟨pos, hmem, hc⟩
      exact ⟨pos, hmem, (key pos hmem).mpr hc⟩
  · intro mark hmark
    have hb : ((" " : String) == mark) = false := by
      simp [Ne.symm hmark]
    simp [checkWinner, winPositions, positionMatched, initBoard, hb]

/-- Witness for C2 at a concrete input: the empty board has no winner for
the mark "X". -/
theorem checkWinner_spec_witness : checkWinner initBoard "X" = false :=
  checkWinner_spec.2 "X" (by decide)

/-- C3: for every cellNumber in [1,9] the repeated-subtraction loop of
`setPlayerPosition` computes exactly the row and column of the spec's
div/mod rule (`specRowCol`), and `setPlayerPosition` addresses exactly
that cell: it reads (and, when empty, writes) the cell at
`row = (cellNumber-1) div 3`, `col = (cellNumber-1) mod 3`. -/
theorem posLoop_div_mod_equiv (c : ℕ) (h1 : 1 ≤ c) (h9 : c ≤ 9) :
    (posLoop 0 (.num (c : ℚ))).1 = (specRowCol c).1 ∧
    colOf ((posLoop 0 (.num (c : ℚ))).2.jsub (.num 1)) =
      some ⟨(specRowCol c).2, Nat.mod_lt _ (by norm_num)⟩ ∧
    (∀ (b : Board) (mark : Cell),
      setPlayerPosition b (.num (c : ℚ)) mark =
        if b.cells ⟨(c - 1) / 3, by omega⟩ ⟨(c - 1) % 3, by omega⟩ = " " then
          some (true,
            { cells := fun i2 j2 =>
                if i2 = ⟨(c - 1) / 3, by omega⟩ ∧ j2 = ⟨(c - 1) % 3, by omega⟩
                then mark else b.cells i2 j2,
              filledCellCount := b.filledCellCount + 1 })
        else some (false, b)) := by
  refine ⟨?_, ?_, ?_⟩
  · interval_cases c <;>
      norm_num [specRowCol, posLoop_step, posLoop_done]
  · interval_cases c <;>
      norm_num [specRowCol, posLoop_step, posLoop_done, JSNum.jsub, colOf] <;>
      decide
  · intro b mark
    exact spp_int b c h1 h9 mark ⟨_, by omega⟩ ⟨_, by omega⟩ rfl rfl

/-- Witness for C3 at the concrete cell number 5: the loop yields row 1,
and the residual translates to column 1, matching the div/mod rule. -/
theorem posLoop_div_mod_equiv_witness :
    (posLoop 0 (.num ((5 : ℕ) : ℚ))).1 = (specRowCol 5).1 ∧
    colOf ((posLoop 0 (.num ((5 : ℕ) : ℚ))).2.jsub (.num 1)) =
      some ⟨(specRowCol 5).2, Nat.mod_lt _ (by norm_num)⟩ :=
  ⟨(posLoop_div_mod_equiv 5 (by norm_num) (by norm_num)).1,
   (posLoop_div_mod_equiv 5 (by norm_num) (by norm_num)).2.1⟩

/-- C4: failure is atomic.  For any cell number outside [1,9] (including
the `NaN` produced by parsing non-numeric text) and for any in-range cell
number whose target cell is occupied, `setPlayerPosition` returns false
and the grid and `filledCellCount` are left exactly as they were. -/
theorem setPlayerPosition_failure_atomic (b : Board) (mark : Cell) :
    (∀ q : ℚ, q < 1 ∨ 9 < q →
      setPlayerPosition b (.num q) mark = some (false, b)) ∧
    setPlayerPosition b .nan mark = some (false, b) ∧
    (∀ (c : ℕ) (h1 : 1 ≤ c) (h9 : c ≤ 9),
      b.cells ⟨(c - 1) / 3, by omega⟩ ⟨(c - 1) % 3, by omega⟩ ≠ " " →
      setPlayerPosition b (.num (c : ℚ)) mark = some (false, b)) := by
  refine ⟨?_, ?_, ?_⟩
  · intro q hq
    have hguard : (JSNum.jlt (.num q) (.num 1) || JSNum.jgt (.num q) (.num 9))
        = true := by
      rcases hq with hq | hq <;> simp [JSNum.jlt, JSNum.jgt] <;> tauto
    unfold setPlayerPosition
    rw [hguard]
    rfl
  · have hguard : (JSNum.jlt .nan (.num 1) || JSNum.jgt .nan (.num 9)) = false := by
      simp [JSNum.jlt, JSNum.jgt]
    unfold setPlayerPosition
    rw [hguard]
    simp [posLoop_nan, JSNum.jsub, colOf]
  · intro c h1 h9 hocc
    rw [spp_int b c h1 h9 mark ⟨_, by omega⟩ ⟨_, by omega⟩ rfl rfl, if_neg hocc]

/-- Witness for C4 at concrete inputs: cell number 0 is rejected on the
empty board, and placing at cell 1 of a board whose corner is occupied
fails, both leaving the board unchanged. -/
theorem setPlayerPosition_failure_atomic_witness :
    setPlayerPosition initBoard (.num 0) "X" = some (false, initBoard) ∧
    setPlayerPosition
      { cells := fun i2 j2 => if i2 = 0 ∧ j2 = 0 then "O" else " ",
        filledCellCount := 1 } (.num ((1 : ℕ) : ℚ)) "X" =
      some (false,
        { cells := fun i2 j2 => if i2 = 0 ∧ j2 = 0 then "O" else " ",
          filledCellCount := 1 }) :=
  ⟨(setPlayerPosition_failure_atomic initBoard "X").1 0 (by norm_num),
   (setPlayerPosition_failure_atomic _ "X").2.2 1 (by norm_num) (by norm_num)
     (by decide)⟩

/-- C5: `filledCellCount` equals the number of non-empty cells initially
and after every board operation applied with an actual player mark (any
mark other than the empty-cell string): every successful placement
raises the counter by exactly 1 and keeps it at most 9, every failed
placement leaves the state untouched, and `resetBoard` re-establishes
the invariant from any state. -/
theorem filledCellCount_invariant :
    boardInv initBoard ∧
    (∀ (b : Board) (c : JSNum) (mark : Cell) (b2 : Board),
      boardInv b → mark ≠ " " →
      setPlayerPosition b c mark = some (true, b2) →
      boardInv b2 ∧ b2.filledCellCount = b.filledCellCount + 1 ∧
        b2.filledCellCount ≤ 9) ∧
    (∀ (b : Board) (c : JSNum) (mark : Cell) (b2 : Board),
      setPlayerPosition b c mark = some (false, b2) → b2 = b) ∧
    (∀ b : Board, boardInv (resetBoard b)) := by
  refine ⟨?_, ?_, ?_, ?_⟩
  · unfold boardInv
    simp [initBoard, countFilled]
  · intro b c mark b2 hinv hmark hset
    obtain ⟨i, j, hempty, hb2⟩ := spp_true_elim hset
    have hcount : countFilled b2 = countFilled b + 1 := by
      rw [hb2]
      exact countFilled_place b i j mark hempty hmark
    have hfc : b2.filledCellCount = b.filledCellCount + 1 := by
      rw [hb2]
    have hinv2 : boardInv b2 := by
      unfold boardInv at hinv ⊢
      rw [hfc, hcount, hinv]
    refine ⟨hinv2, hfc, ?_⟩
    rw [hinv2]
    exact countFilled_le_nine b2
  · intro b c mark b2 hset
    exact spp_false_elim hset
  · intro b
    unfold boardInv
    simp [resetBoard, countFilled]

/-- Witness for C5 at a concrete input: placing "X" at cell 5 of the
empty board yields a board satisfying the invariant with counter 1. -/
theorem filledCellCount_invariant_witness :
    boardInv
      { cells := fun i2 j2 =>
          if i2 = ⟨1, by norm_num⟩ ∧ j2 = ⟨1, by norm_num⟩ then "X"
          else initBoard.cells i2 j2,
        filledCellCount := initBoard.filledCellCount + 1 } ∧
    ({ cells := fun i2 j2 =>
         if i2 = ⟨1, by norm_num⟩ ∧ j2 = ⟨1, by norm_num⟩ then "X"
         else initBoard.cells i2 j2,
       filledCellCount := initBoard.filledCellCount + 1 } : Board).filledCellCount
      = initBoard.filledCellCount + 1 := by
  have heval : setPlayerPosition initBoard (.num ((5 : ℕ) : ℚ)) "X" =
      some (true,
        { cells := fun i2 j2 =>
            if i2 = ⟨1, by norm_num⟩ ∧ j2 = ⟨1, by norm_num⟩ then "X"
            else initBoard.cells i2 j2,
          filledCellCount := initBoard.filledCellCount + 1 }) := by
    rw [spp_int initBoard 5 (by norm_num) (by norm_num) "X"
      ⟨1, by norm_num⟩ ⟨1, by norm_num⟩ rfl rfl]
    simp [initBoard]
  have h := filledCellCount_invariant.2.1 initBoard (.num ((5 : ℕ) : ℚ)) "X" _
    (by unfold boardInv; simp [initBoard, countFilled]) (by decide) heval
  exact ⟨h.1, h.2.1⟩

/-- C8: `resetBoard` empties all 9 cells and zeroes `filledCellCount`
from any state, and applying it twice gives the same state as once. -/
theorem resetBoard_spec : ∀ b : Board,
    (∀ i j : Fin 3, (resetBoard b).cells i j = " ") ∧
    (resetBoard b).filledCellCount = 0 ∧
    resetBoard (resetBoard b) = resetBoard b :=
  fun _b => ⟨fun _i _j => rfl, rfl, rfl⟩

theorem posLoop_sub_multiple (n : ℕ) : ∀ (r : ℕ) (q : ℚ), (⌈q⌉).toNat ≤ n →
    ∃ m : ℕ, (posLoop r (.num q)).2 = .num (q - 3 * m) := by
  induction n with
  | zero =>
    intro r q hn
    have h3 : ¬ 3 < q := by
      intro h
      have hc : (3 : ℤ) < ⌈q⌉ := by
        rw [Int.lt_ceil]; exact_mod_cast h
      omega
    rw [posLoop_done r q h3]
    exact ⟨0, by norm_num⟩
  | succ n ih =>
    intro r q hn
    by_cases h3 : 3 < q
    · have hc4 : (3 : ℤ) < ⌈q⌉ := by
        rw [Int.lt_ceil]; exact_mod_cast h3
      have hceil : (⌈q - 3⌉ : ℤ) = ⌈q⌉ - 3 := by
        exact_mod_cast Int.ceil_sub_int q (3 : ℤ)
      have hle : (⌈q - 3⌉).toNat ≤ n := by omega
      obtain ⟨m, hm⟩ := ih (r + 1) (q - 3) hle
      rw [posLoop_step r q h3, hm]
      refine ⟨m + 1, ?_⟩
      congr 1
      push_cast
      ring
    · rw [posLoop_done r q h3]
      exact ⟨0, by norm_num⟩

/-- C9: `setPlayerPosition` is total and never throws: every call returns
normally, and whenever it returns false the board state is exactly the
input state (`none`, the thrown-exception case of the embedding, is
unreachable).  Moreover the invalid inputs named by the claim definitely
fail: `NaN` (from parsing non-numeric text) and every non-integer number
(denominator other than 1) — including those inside [1,9], which pass the
range guard and then miss every existing column index — return false and
leave the grid and `filledCellCount` unchanged. -/
theorem setPlayerPosition_total_safe :
    (∀ (b : Board) (c : JSNum) (mark : Cell),
      (∃ b2, setPlayerPosition b c mark = some (true, b2)) ∨
        setPlayerPosition b c mark = some (false, b)) ∧
    (∀ (b : Board) (mark : Cell),
      setPlayerPosition b .nan mark = some (false, b)) ∧
    (∀ (b : Board) (mark : Cell) (q : ℚ), q.den ≠ 1 →
      setPlayerPosition b (.num q) mark = some (false, b)) := by
  refine ⟨?_, ?_, ?_⟩
  · intro b c mark
    unfold setPlayerPosition
    split
    · right; rfl
    · rename_i hguard
      dsimp only
      split
      · split
        · split
          · left; exact ⟨_, rfl⟩
          · right; rfl
        · right; rfl
      · rename_i hr
        exfalso
        apply hr
        cases c with
        | nan =>
          rw [posLoop_nan]
          norm_num
        | num q =>
          simp only [Bool.or_eq_true, not_or, JSNum.jlt, JSNum.jgt,
            decide_eq_true_eq] at hguard
          have hq9 : q ≤ 9 := not_lt.mp hguard.2
          have hle := posLoop_row_le 2 0 q (by push_cast; linarith)
          omega
  · intro b mark
    have hguard : (JSNum.jlt .nan (.num 1) || JSNum.jgt .nan (.num 9)) = false := by
      simp [JSNum.jlt, JSNum.jgt]
    unfold setPlayerPosition
    rw [hguard]
    simp [posLoop_nan, JSNum.jsub, colOf]
  · intro b mark q hq
    unfold setPlayerPosition
    split
    · rfl
    · rename_i hguard
      dsimp only
      simp only [Bool.or_eq_true, not_or, JSNum.jlt, JSNum.jgt,
        decide_eq_true_eq] at hguard
      have hq9 : q ≤ 9 := not_lt.mp hguard.2
      have hrow : (posLoop 0 (.num q)).1 < 3 := by
        have hle := posLoop_row_le 2 0 q (by push_cast; linarith)
        omega
      rw [dif_pos hrow]
      obtain ⟨m, hm⟩ := posLoop_sub_multiple (⌈q⌉).toNat 0 q le_rfl
      rw [hm]
      have hint : ∀ k : ℕ, q - 3 * m - 1 ≠ (k : ℚ) := by
        intro k hk
        apply hq
        have hqe : q = ((3 * m + 1 + k : ℕ) : ℚ) := by push_cast; linarith
        rw [hqe, Rat.den_natCast]
      have h0 : q - 3 * m - 1 ≠ 0 := by simpa using hint 0
      have h1 : q - 3 * m - 1 ≠ 1 := by simpa using hint 1
      have h2 : q - 3 * m - 1 ≠ 2 := by simpa using hint 2
      simp [JSNum.jsub, colOf, h0, h1, h2]

/-- Witness for C9 at a concrete input: the non-integer cell number 5/2
passes the range guard yet fails, leaving the empty board unchanged. -/
theorem setPlayerPosition_total_safe_witness :
    setPlayerPosition initBoard (.num (5 / 2)) "X" = some (false, initBoard) :=
  setPlayerPosition_total_safe.2.2 initBoard "X" (5 / 2) (by norm_num)

/-- C10: a successful placement writes the addressed div/mod cell and
changes no other cell: each of the other 8 cells keeps exactly the value
it had before the call. -/
theorem setPlayerPosition_frame (b : Board) (c : ℕ) (h1 : 1 ≤ c) (h9 : c ≤ 9)
    (mark : Cell) (b2 : Board)
    (hs : setPlayerPosition b (.num (c : ℚ)) mark = some (true, b2)) :
    b2.cells ⟨(c - 1) / 3, by omega⟩ ⟨(c - 1) % 3, by omega⟩ = mark ∧
    ∀ i j : Fin 3, ¬((i : ℕ) = (c - 1) / 3 ∧ (j : ℕ) = (c - 1) % 3) →
      b2.cells i j = b.cells i j := by
  rw [spp_int b c h1 h9 mark ⟨_, by omega⟩ ⟨_, by omega⟩ rfl rfl] at hs
  split at hs
  · simp only [Option.some.injEq, Prod.mk.injEq, true_and] at hs
    rw [← hs]
    constructor
    · simp
    · intro i j hij
      have hcond : ¬(i = (⟨(c - 1) / 3, by omega⟩ : Fin 3) ∧
          j = (⟨(c - 1) % 3, by omega⟩ : Fin 3)) := by
        intro hand
        exact hij ⟨congrArg Fin.val hand.1, congrArg Fin.val hand.2⟩
      simp [hcond]
  · simp at hs

theorem spp_eval_cell1 : setPlayerPosition initBoard (.num ((1 : ℕ) : ℚ)) "X" =
    some (true,
      { cells := fun i2 j2 =>
          if i2 = ⟨0, by norm_num⟩ ∧ j2 = ⟨0, by norm_num⟩ then "X"
          else initBoard.cells i2 j2,
        filledCellCount := initBoard.filledCellCount + 1 }) := by
  rw [spp_int initBoard 1 (by norm_num) (by norm_num) "X"
    ⟨0, by norm_num⟩ ⟨0, by norm_num⟩ rfl rfl]
  simp [initBoard]

/-- Witness for C10 at a concrete input: placing "X" at cell 1 of the
empty board writes the corner and leaves cell (2,2) as it was. -/
theorem setPlayerPosition_frame_witness :
    ({ cells := fun i2 j2 =>
         if i2 = ⟨0, by norm_num⟩ ∧ j2 = ⟨0, by norm_num⟩ then "X"
         else initBoard.cells i2 j2,
       filledCellCount := initBoard.filledCellCount + 1 } : Board).cells
      ⟨0, by norm_num⟩ ⟨0, by norm_num⟩ = "X" ∧
    ({ cells := fun i2 j2 =>
         if i2 = ⟨0, by norm_num⟩ ∧ j2 = ⟨0, by norm_num⟩ then "X"
         else initBoard.cells i2 j2,
       filledCellCount := initBoard.filledCellCount + 1 } : Board).cells
      ⟨2, by norm_num⟩ ⟨2, by norm_num⟩ =
      initBoard.cells ⟨2, by norm_num⟩ ⟨2, by norm_num⟩ :=
  ⟨(setPlayerPosition_frame initBoard 1 (by norm_num) (by norm_num) "X" _
      spp_eval_cell1).1,
   (setPlayerPosition_frame initBoard 1 (by norm_num) (by norm_num) "X" _
      spp_eval_cell1).2 ⟨2, by norm_num⟩ ⟨2, by norm_num⟩ (by decide)⟩

/-- C7 counterexample: the rows of the array returned by `getBoard()` are
not fresh sequences.  On the initial heap, the first returned row is the
very same row object as the internal first row, and writing "X" through
it changes the internal board cell (0,0) from `" "` to `"X"`. -/
theorem getBoard_rows_not_fresh :
    getBoardCopy initHeap 0 = initHeap.boardRows 0 ∧
    readCellH initHeap 0 0 = " " ∧
    readCellH (setRowCell initHeap (getBoardCopy initHeap 0) 0 "X") 0 0 = "X" := by
  refine ⟨rfl, rfl, ?_⟩
  simp [readCellH, setRowCell, getBoardCopy, initHeap]

/-- C7 amended: `getBoard()` returns a shallow copy whose top-level array
is fresh — assigning a row slot of the returned array updates only the
caller's copy and leaves the heap, hence every internal cell, unchanged —
but whose rows are the internal row objects themselves (aliased, not
fresh), so writing a cell through a returned row does mutate the internal
board. -/
theorem getBoard_shallow_copy_amended :
    ∀ (h : JSHeap) (i : Fin 3),
      getBoardCopy h i = h.boardRows i ∧
      (∀ (copy : Fin 3 → Fin 3) (r : Fin 3),
        (setOuterSlot h copy i r).2 = h ∧
        (setOuterSlot h copy i r).1 = Function.update copy i r) ∧
      (∀ (j : Fin 3) (v : Cell),
        readCellH (setRowCell h (getBoardCopy h i) j v) i j = v) := by
  intro h i
  refine ⟨rfl, fun copy r => ⟨rfl, rfl⟩, ?_⟩
  intro j v
  simp [readCellH, setRowCell, getBoardCopy]

/-- C1: the code contradicts the duplicate-name rule it announces.  On
the prompt-answer stream A, A, B, C the source re-prompts (recursively)
after the equal pair, but — lacking a `return` after the recursive call —
falls through and overwrites both players with the equal outer names, so
`setupPlayer` finishes with player 1 and player 2 both named "A". -/
theorem setupPlayer_equal_names_bug :
    setupPlayer ["A", "A", "B", "C"] =
      some (createPlayer "A" "X", createPlayer "A" "O", []) ∧
    (createPlayer "A" "X").name = (createPlayer "A" "O").name :=
  ⟨rfl, rfl⟩

theorem gameLoopTrace_get (player1 player2 : Player) :
    ∀ (inputs : List JSNum) (b : Board) (i : ℕ),
      i < (gameLoopTrace player1 player2 b inputs).length →
      (gameLoopTrace player1 player2 b inputs).get? i =
        some (if (b.filledCellCount + i) % 2 = 0 then player1 else player2) := by
  intro inputs
  induction inputs with
  | nil =>
    intro b i h
    simp [gameLoopTrace] at h
  | cons c rest ih =>
    intro b i h
    by_cases h9 : b.filledCellCount = 9
    · simp [gameLoopTrace, h9] at h
    · cases hsp : setPlayerPosition b c
          (if b.filledCellCount % 2 = 0 then player1 else player2).mark with
      | none =>
        simp [gameLoopTrace, h9, hsp] at h
      | some res =>
        rcases res with ⟨ok, b2⟩
        cases ok with
        | false =>
          have htr : gameLoopTrace player1 player2 b (c :: rest) =
              gameLoopTrace player1 player2 b rest := by
            simp [gameLoopTrace, h9, hsp]
          rw [htr] at h ⊢
          exact ih b i h
        | true =>
          have hcount := spp_true_count hsp
          by_cases hw : checkWinner b2
              (if b.filledCellCount % 2 = 0 then player1 else player2).mark
          · have htr : gameLoopTrace player1 player2 b (c :: rest) =
                [if b.filledCellCount % 2 = 0 then player1 else player2] := by
              simp [gameLoopTrace, h9, hsp, hw]
            rw [htr] at h ⊢
            simp only [List.length_singleton] at h
            have hi0 : i = 0 := by omega
            subst hi0
            simp
          · by_cases h92 : b2.filledCellCount = 9
            · have htr : gameLoopTrace player1 player2 b (c :: rest) =
                  [if b.filledCellCount % 2 = 0 then player1 else player2] := by
                simp [gameLoopTrace, h9, hsp, hw, h92]
              rw [htr] at h ⊢
              simp only [List.length_singleton] at h
              have hi0 : i = 0 := by omega
              subst hi0
              simp
            · have htr : gameLoopTrace player1 player2 b (c :: rest) =
                  (if b.filledCellCount % 2 = 0 then player1 else player2) ::
                    gameLoopTrace player1 player2 b2 rest := by
                simp [gameLoopTrace, h9, hsp, hw, h92]
              rw [htr] at h ⊢
              cases i with
              | zero =>
                simp
              | succ i2 =>
                simp only [List.length_cons, Nat.succ_lt_succ_iff] at h
                simp only [List.get?_cons_succ]
                rw [ih b2 i2 h, hcount]
                have harith : b.filledCellCount + 1 + i2 =
                    b.filledCellCount + (i2 + 1) := by omega
                rw [harith]

/-- C6: in every iteration of `gameLoop` the mover is the mark-"X"
player exactly when the filled-cell count before the move is even and
the mark-"O" player when it is odd; starting from an empty board the
k-th recorded move (0-indexed) is therefore made by "X" for even k and
"O" for odd k — strict alternation starting with "X". -/
theorem gameLoop_turn_alternation (player1 player2 : Player) (b : Board)
    (inputs : List JSNum) (k : ℕ)
    (hx : player1.mark = "X") (ho : player2.mark = "O")
    (hb : b.filledCellCount = 0)
    (hk : k < (gameLoopTrace player1 player2 b inputs).length) :
    ((gameLoopTrace player1 player2 b inputs).get? k).map Player.mark =
      some (if k % 2 = 0 then "X" else "O") := by
  rw [gameLoopTrace_get player1 player2 inputs b k hk, hb]
  by_cases hp : k % 2 = 0 <;> simp [hp, hx, ho]

theorem gameLoopTrace_eval_cell1 :
    gameLoopTrace (createPlayer "A" "X") (createPlayer "B" "O") initBoard
      [.num ((1 : ℕ) : ℚ)] = [createPlayer "A" "X"] := by
  have hfc : initBoard.filledCellCount = 0 := rfl
  have hmark : (createPlayer "A" "X").mark = "X" := rfl
  have hcw : checkWinner
      { cells := fun i2 j2 =>
          if i2 = ⟨0, by norm_num⟩ ∧ j2 = ⟨0, by norm_num⟩ then "X"
          else initBoard.cells i2 j2,
        filledCellCount := initBoard.filledCellCount + 1 } "X" = false := by
    decide
  simp [gameLoopTrace, hfc, hmark, spp_eval_cell1, hcw]
  rw [show (JSNum.num (1 : ℚ)) = (JSNum.num ((1 : ℕ) : ℚ)) by norm_num,
    spp_eval_cell1]

/-- Witness for C6 at a concrete input: on the run where the first prompt
answer is cell 1, move 0 is made by the "X" player. -/
theorem gameLoop_turn_alternation_witness :
    ((gameLoopTrace (createPlayer "A" "X") (createPlayer "B" "O") initBoard
        [.num ((1 : ℕ) : ℚ)]).get? 0).map Player.mark = some "X" := by
  have h := gameLoop_turn_alternation (createPlayer "A" "X")
    (createPlayer "B" "O") initBoard [.num ((1 : ℕ) : ℚ)] 0 rfl rfl rfl
    (by rw [gameLoopTrace_eval_cell1]; norm_num)
  simpa using h
